import Mathlib

/-!
Verification of the scrywarden anomaly-detection pipeline.

This file gives a shallow embedding of the parts of the code the claims
talk about:

* `scrywarden/transport/message.py` — JSON field traversal (`get`,
  `Message.__contains__`, `Message.get`).
* `scrywarden/profile/reporters.py` — the `Mandatory` and `Optional`
  reporters, including the intra-batch increment helpers
  (`increment_total`, `increment_count`) and the stateful row scans
  (`Mandatory._update_groups`, `Optional._update_count`).
* `scrywarden/profile/base.py` — `update_feature_count`.
* `scrywarden/profile/analyzers.py` — `ExponentialDecayAnalyzer.analyze`.
* `scrywarden/profile/collectors.py` — `TimeRangeCollector`'s
  `_fetch_anomalies` / `_loop_until_anomalies`.
* `scrywarden/pipline/base.py` — the process-cycle orchestration
  (`Pipeline._process`, `Pipeline._get_actors`).
* `scrywarden/investigator/base.py` together with the unique
  `(group_id, index)` constraint of `scrywarden/database.py` — the
  investigation claiming protocol, embedded as a transition system.

Pandas data frames are embedded as Lists of structure rows; machine
floats are embedded as exact rationals; Python `datetime` timestamps are
embedded as integers (only their ordering matters to the embedded code).
Pandas sorts on several keys (`sort_values` with a list of columns) are
stable lexicographic sorts; they are embedded with `List.insertionSort`
on the same lexicographic key order, which is also a stable sort, and
any two stable sorts by the same keys agree on every input.
-/

/-! ### JSON values (`scrywarden/typing.py` JSONValue)

Numbers are embedded as integers: none of the embedded code inspects
numeric payloads, it only carries them.  Python dictionaries carry
unique keys; they are embedded as association lists. -/

inductive JSONValue where
  | null : JSONValue
  | bool (b : Bool) : JSONValue
  | num (n : Int) : JSONValue
  | str (s : String) : JSONValue
  | arr (elems : List JSONValue) : JSONValue
  | obj (entries : List (String × JSONValue)) : JSONValue
deriving Repr

/-- Model of Python `int(key)` on a string as used by
`scrywarden/transport/message.py get`: an optional sign followed by a
nonempty run of digits parses, anything else raises `ValueError`
(embedded as `none`). -/
def pyDigits? (cs : List Char) : Option Nat :=
  if cs ≠ [] ∧ cs.all Char.isDigit then
    some (cs.foldl (fun acc c => 10 * acc + (c.toNat - 48)) 0)
  else
    none

def pyInt? (s : String) : Option Int :=
  match s.toList with
  | '-' :: cs => (pyDigits? cs).map (fun n => -(n : Int))
  | '+' :: cs => (pyDigits? cs).map (fun n => (n : Int))
  | cs => (pyDigits? cs).map (fun n => (n : Int))

/-- Model of Python list indexing `data[i]`: negative indexes count from
the end, out-of-range raises `IndexError` (embedded as `none`). -/
def pyListGet? (xs : List JSONValue) (i : Int) : Option JSONValue :=
  if 0 ≤ i then xs.get? i.toNat
  else if 0 ≤ (xs.length : Int) + i then xs.get? ((xs.length : Int) + i).toNat
  else none

/-- Embedding of `scrywarden/transport/message.py get(data, field)`.

A `KeyError` is embedded as `Except.error` carrying the `field` argument
the Python code puts into the exception.  At each level the code
re-raises `KeyError(field)` with its own (full remaining) field, so the
error that escapes carries the full path given at the top. -/
def jsonGet : JSONValue → List String → Except (List String) JSONValue
  | data, [] => .ok data
  | data, key :: remaining =>
    let target : Option JSONValue :=
      match data with
      | .obj entries =>
        (entries.find? (fun kv : String × JSONValue => kv.1 == key)).map
          (fun kv : String × JSONValue => kv.2)
      | .arr elems => (pyInt? key).bind (pyListGet? elems)
      | _ => none
    match target with
    | none => .error (key :: remaining)
    | some t =>
      match jsonGet t remaining with
      | .ok v => .ok v
      | .error _ => .error (key :: remaining)

/-- Embedding of `scrywarden/transport/message.py Message`: the `id` and
`timestamp` fields are irrelevant to field traversal and kept abstract
as numbers. -/
structure Message where
  id : Nat
  timestamp : Int
  data : JSONValue

/-- `Message.__getitem__` with a sequence argument (`m[path]`).  The
Python method also accepts a plain string `s`, which it normalizes to
the one-element sequence `(s,)`; see `Message.getitemStr`. -/
def Message.getitem (m : Message) (item : List String) :
    Except (List String) JSONValue :=
  jsonGet m.data item

def Message.getitemStr (m : Message) (item : String) :
    Except (List String) JSONValue :=
  m.getitem [item]

/-- `Message.__contains__`: try `self[item]`, catch `KeyError`. -/
def Message.containsPath (m : Message) (item : List String) : Bool :=
  match m.getitem item with
  | .ok _ => true
  | .error _ => false

/-- `Message.get(item, default)`: try `self[item]`, catch `KeyError`
and return the default. -/
def Message.getD (m : Message) (item : List String) (default : JSONValue) :
    JSONValue :=
  match m.getitem item with
  | .ok v => v
  | .error _ => default

/-- Any error escaping `jsonGet` carries exactly the field path it was
called with. -/
theorem jsonGet_error_eq (data : JSONValue) (field : List String) :
    ∀ e, jsonGet data field = .error e → e = field := by
  induction field generalizing data with
  | nil => intro e h; simp [jsonGet] at h
  | cons key remaining ih =>
    intro e h
    unfold jsonGet at h
    cases htarget : (match data with
      | .obj entries =>
        (entries.find? (fun kv : String × JSONValue => kv.1 == key)).map
          (fun kv : String × JSONValue => kv.2)
      | .arr elems => (pyInt? key).bind (pyListGet? elems)
      | _ => none) with
    | none =>
      rw [htarget] at h
      simp at h
      exact h.symm
    | some t =>
      rw [htarget] at h
      cases hrec : jsonGet t remaining with
      | ok v => simp [hrec] at h
      | error e' =>
        simp only [hrec] at h
        simp at h
        exact h.symm

/-- C10: for every Message and every field path (a plain string is
normalized to a one-element path), membership is a total Boolean test,
`Message.get` returns the stored JSON value when the path resolves and
the given default otherwise, and the only failure either can observe is
a `KeyError` carrying the full path — missing dictionary keys,
non-integer or out-of-range list indexes and non-container intermediate
values all surface as that `KeyError`, which `__contains__` and `get`
catch. -/
theorem C10_message_get_contains_total (m : Message) (path : List String)
    (s : String) (default : JSONValue) :
    m.getitemStr s = m.getitem [s]
    ∧ m.containsPath path = (m.getitem path).isOk
    ∧ ((∃ v, m.getitem path = .ok v ∧ m.getD path default = v
          ∧ m.containsPath path = true)
        ∨ (m.getitem path = .error path ∧ m.getD path default = default
          ∧ m.containsPath path = false)) := by
  refine ⟨rfl, ?_, ?_⟩
  · cases h : m.getitem path <;>
      simp [Message.containsPath, h, Except.isOk, Except.toBool]
  · cases h : m.getitem path with
    | ok v =>
      exact Or.inl ⟨v, rfl, by simp [Message.getD, h], by
        simp [Message.containsPath, h]⟩
    | error e =>
      have he : e = path := jsonGet_error_eq m.data path e h
      subst he
      exact Or.inr ⟨rfl, by simp [Message.getD, h], by
        simp [Message.containsPath, h]⟩

/-! ### Anomaly rows and `ExponentialDecayAnalyzer.analyze`
(`scrywarden/profile/analyzers.py`)

An anomaly table row as produced by the collector (`event_id`,
`message_id`, `actor_id`, `created_at`, `anomaly_id`, `field_id`,
`score`).  Message ids are UUIDs in the source; only equality matters,
so they are embedded as naturals. -/

structure AnomalyRow where
  event_id : Nat
  message_id : Nat
  actor_id : Nat
  created_at : Int
  anomaly_id : Nat
  field_id : Nat
  score : Rat
deriving Repr, DecidableEq

namespace ExponentialDecayAnalyzer

/-- One row of `anomalies.groupby('actor_id').agg(mean=..., count=...)`. -/
structure AggRow where
  actor_id : Nat
  mean : Rat
  count : Nat
deriving Repr, DecidableEq

def actorGroup (anomalies : List AnomalyRow) (a : Nat) : List AnomalyRow :=
  anomalies.filter (fun r => r.actor_id == a)

/-- Group keys of `groupby('actor_id')` (each distinct actor id). -/
def groupKeys (anomalies : List AnomalyRow) : List Nat :=
  (anomalies.map (fun r => r.actor_id)).dedup

/-- `agg(mean=('score', 'mean'), count=('event_id', 'count'))`: the
`event_id` column has no nulls, so `count` is the group size. -/
def agg (anomalies : List AnomalyRow) : List AggRow :=
  (groupKeys anomalies).map (fun a =>
    { actor_id := a
      mean := ((actorGroup anomalies a).map (fun r => r.score)).sum /
        ((actorGroup anomalies a).length : Rat)
      count := (actorGroup anomalies a).length })

/-- The `weighted_mean` column:
`mean - weight * (1 - decay) ** (count - 1)`. -/
def weightedMeanOf (weight decay : Rat) (row : AggRow) : Rat :=
  row.mean - weight * (1 - decay) ^ (row.count - 1)

/-- Embedding of `ExponentialDecayAnalyzer.analyze`: aggregate per
actor, left-merge the aggregate onto the rows, keep the rows whose
`weighted_mean` is at least `threshold`, drop the merged columns.  A
left merge whose right side has unique keys keeps each row once; the
filter keeps the original row order. -/
def analyze (weight decay threshold : Rat) (anomalies : List AnomalyRow) :
    List AnomalyRow :=
  let aggT := agg anomalies
  anomalies.filter (fun r =>
    match aggT.find? (fun g => g.actor_id == r.actor_id) with
    | some g => threshold ≤ weightedMeanOf weight decay g
    | none => false)

/-- Per-group mean written the way the claim states it. -/
def specMean (anomalies : List AnomalyRow) (a : Nat) : Rat :=
  ((actorGroup anomalies a).map (fun r => r.score)).sum /
    ((actorGroup anomalies a).length : Rat)

/-- Per-group count written the way the claim states it. -/
def specCount (anomalies : List AnomalyRow) (a : Nat) : Nat :=
  (actorGroup anomalies a).length

theorem find?_beq_self {keys : List Nat} {a : Nat} (h : a ∈ keys) :
    keys.find? (fun k => k == a) = some a := by
  induction keys with
  | nil => cases h
  | cons k keys ih =>
    by_cases hk : k = a
    · subst hk; simp [List.find?_cons]
    · have hmem : a ∈ keys := by
        rcases List.mem_cons.mp h with rfl | hmem
        · exact absurd rfl hk
        · exact hmem
      have hne : (k == a) = false := by simp [hk]
      rw [List.find?_cons]
      simp only [hne]
      exact ih hmem

theorem agg_find?_eq (anomalies : List AnomalyRow) (a : Nat)
    (h : a ∈ groupKeys anomalies) :
    (agg anomalies).find? (fun g => g.actor_id == a) =
      some { actor_id := a, mean := specMean anomalies a,
             count := specCount anomalies a } := by
  unfold agg
  rw [List.find?_map]
  have : ((fun g : AggRow => g.actor_id == a) ∘ (fun k =>
      ({ actor_id := k
         mean := ((actorGroup anomalies k).map (fun r => r.score)).sum /
           ((actorGroup anomalies k).length : Rat)
         count := (actorGroup anomalies k).length } : AggRow))) =
      (fun k => k == a) := rfl
  rw [this, find?_beq_self h]
  rfl

end ExponentialDecayAnalyzer

namespace ExponentialDecayAnalyzer

/-- Two anomalies of score 0.9 for actor 1 (distinct events). -/
def exTwo : List AnomalyRow :=
  [⟨1, 1, 1, 0, 1, 1, 9/10⟩, ⟨2, 2, 1, 0, 2, 1, 9/10⟩]

/-- Twenty anomalies of score 0.9 for actor 2 (distinct events). -/
def exTwenty : List AnomalyRow :=
  (List.range 20).map (fun i => ⟨i + 1, i + 1, 2, 0, i + 1, 1, 9/10⟩)

/-- A single anomaly of the given score for actor 1. -/
def exSingle (s : Rat) : List AnomalyRow := [⟨1, 1, 1, 0, 1, 1, s⟩]

end ExponentialDecayAnalyzer

open ExponentialDecayAnalyzer in
/-- C5: `ExponentialDecayAnalyzer.analyze` groups the anomaly table by
`actor_id`, takes per group the mean score and the event count, and
returns exactly the rows whose group has
`mean - weight * (1 - decay) ^ (count - 1) >= threshold`; with the
default `weight = 0.2`, `decay = 0.1`, `threshold = 0.5` it keeps two
0.9 scores for one actor (weighted mean 0.72), twenty 0.9 scores
(weighted mean about 0.873), a single 0.9 (weighted mean exactly 0.7),
and drops a single 0.6 (weighted mean 0.4). -/
theorem C5_exponential_decay_analyze (weight decay threshold : Rat)
    (anomalies : List AnomalyRow) :
    analyze weight decay threshold anomalies =
      anomalies.filter (fun r =>
        threshold ≤ specMean anomalies r.actor_id -
          weight * (1 - decay) ^ (specCount anomalies r.actor_id - 1))
    ∧ analyze (1/5) (1/10) (1/2) exTwo = exTwo
    ∧ specMean exTwo 1 - (1/5) * (1 - 1/10) ^ (specCount exTwo 1 - 1) = 72/100
    ∧ analyze (1/5) (1/10) (1/2) exTwenty = exTwenty
    ∧ (8729/10000 < specMean exTwenty 2 -
          (1/5) * (1 - 1/10) ^ (specCount exTwenty 2 - 1)
        ∧ specMean exTwenty 2 -
          (1/5) * (1 - 1/10) ^ (specCount exTwenty 2 - 1) < 8730/10000)
    ∧ analyze (1/5) (1/10) (1/2) (exSingle (9/10)) = exSingle (9/10)
    ∧ specMean (exSingle (9/10)) 1 -
        (1/5) * (1 - 1/10) ^ (specCount (exSingle (9/10)) 1 - 1) = 7/10
    ∧ analyze (1/5) (1/10) (1/2) (exSingle (6/10)) = []
    ∧ specMean (exSingle (6/10)) 1 -
        (1/5) * (1 - 1/10) ^ (specCount (exSingle (6/10)) 1 - 1) = 4/10 := by
  refine ⟨?_,
    by norm_num [analyze, agg, groupKeys, actorGroup, exTwo, weightedMeanOf],
    by norm_num [specMean, specCount, actorGroup, exTwo],
    by norm_num [analyze, agg, groupKeys, actorGroup, exTwenty,
      weightedMeanOf, List.range_succ],
    ⟨by norm_num [specMean, specCount, actorGroup, exTwenty, List.range_succ],
      by norm_num [specMean, specCount, actorGroup, exTwenty,
        List.range_succ]⟩,
    by norm_num [analyze, agg, groupKeys, actorGroup, exSingle, weightedMeanOf],
    by norm_num [specMean, specCount, actorGroup, exSingle],
    by norm_num [analyze, agg, groupKeys, actorGroup, exSingle, weightedMeanOf],
    by norm_num [specMean, specCount, actorGroup, exSingle]⟩
  unfold analyze
  apply List.filter_congr
  intro r hr
  have hmem : r.actor_id ∈ groupKeys anomalies :=
    List.mem_dedup.mpr (List.mem_map.mpr ⟨r, hr, rfl⟩)
  rw [agg_find?_eq anomalies r.actor_id hmem]
  rfl

/-! ### Message values, features and `update_feature_count`
(`scrywarden/profile/base.py`)

A message value row (`profile_id` is constant per profile group and
omitted; `message_id` is the integer form of the message UUID). -/

structure ValueRow where
  message_id : Nat
  timestamp : Int
  actor_id : Nat
  field_id : Nat
  value : String
deriving Repr, DecidableEq

/-- A features table row (`feature_id`, `field_id`, `actor_id`, `value`,
`count`). -/
structure FeatureRow where
  feature_id : Nat
  field_id : Nat
  actor_id : Nat
  value : String
  count : Nat
deriving Repr, DecidableEq

/-- The `(field_id, actor_id, value)` key both tables are joined on. -/
abbrev FKey := Nat × Nat × String

def ValueRow.key (v : ValueRow) : FKey := (v.field_id, v.actor_id, v.value)

def FeatureRow.key (f : FeatureRow) : FKey := (f.field_id, f.actor_id, f.value)

/-- Lexicographic order on group keys: pandas `groupby` emits its groups
sorted by the key tuple. -/
def fkeyLe (a b : FKey) : Prop :=
  a.1 < b.1 ∨ (a.1 = b.1 ∧ (a.2.1 < b.2.1 ∨ (a.2.1 = b.2.1 ∧ a.2.2 ≤ b.2.2)))

instance : DecidableRel fkeyLe := fun a b => by
  unfold fkeyLe; infer_instance

/-- The distinct `(field_id, actor_id, value)` keys of a value table, in
the order pandas `groupby` uses (sorted). `List.insertionSort` is the
embedding of a stable sort (stable sorts agree on every input). -/
def valueKeys (values : List ValueRow) : List FKey :=
  ((values.map ValueRow.key).dedup).insertionSort fkeyLe

/-- The `('message_id', 'nunique')` aggregate for one group: the number
of distinct message ids among the value rows with the given key. -/
def featureDelta (values : List ValueRow) (k : FKey) : Nat :=
  (((values.filter (fun v => v.key == k)).map
    (fun v => v.message_id)).dedup).length

/-- `values.groupby(['field_id', 'actor_id', 'value']).agg(
count=('message_id', 'nunique'))` as a key-indexed table. -/
def groupedCounts (values : List ValueRow) : List (FKey × Nat) :=
  (valueKeys values).map (fun k => (k, featureDelta values k))

/-- Embedding of `update_feature_count(values, features)`: feature rows
whose key occurs among the value keys get the group's distinct-message
count added (`indexed.loc[...,'count'] += grouped['count']`, aligned on
the key); the remaining feature rows pass through unchanged; grouped
keys with no feature row are appended with `feature_id = 0`. -/
def update_feature_count (values : List ValueRow)
    (features : List FeatureRow) : List FeatureRow :=
  let grouped := groupedCounts values
  let indexed := features.map (fun f =>
    if f.key ∈ values.map ValueRow.key then
      { f with count := f.count + featureDelta values f.key }
    else f)
  let missing := grouped.filter
    (fun g => decide (g.1 ∉ features.map FeatureRow.key))
  indexed ++ missing.map (fun g =>
    { feature_id := 0, field_id := g.1.1, actor_id := g.1.2.1,
      value := g.1.2.2, count := g.2 })

theorem featureDelta_pos (values : List ValueRow) (k : FKey)
    (h : k ∈ values.map ValueRow.key) : 1 ≤ featureDelta values k := by
  rcases List.mem_map.mp h with ⟨v, hv, hk⟩
  have hmem : v ∈ values.filter (fun v => v.key == k) := by
    rw [List.mem_filter]
    exact ⟨hv, by simp [hk]⟩
  have h2 : v.message_id ∈
      ((values.filter (fun v => v.key == k)).map
        (fun v => v.message_id)).dedup := by
    rw [List.mem_dedup]
    exact List.mem_map.mpr ⟨v, hmem, rfl⟩
  unfold featureDelta
  exact List.length_pos.mpr (List.ne_nil_of_mem h2)

/-- C9 (frame/effect of `update_feature_count`): feature rows whose key
does not occur in the values are passed through completely unchanged
(same `feature_id`, same `count`); every feature row whose key does
occur reappears with the group's distinct-message count (at least 1)
added to its `count`; value keys with no feature row are appended with
`feature_id = 0`; and every input feature row survives with its
`feature_id` and key intact and a count that never decreases. -/
theorem C9_update_feature_count_frame (values : List ValueRow)
    (features : List FeatureRow) :
    (∀ f ∈ features, f.key ∉ values.map ValueRow.key →
      f ∈ update_feature_count values features)
    ∧ (∀ f ∈ features, f.key ∈ values.map ValueRow.key →
      1 ≤ featureDelta values f.key
      ∧ { f with count := f.count + featureDelta values f.key } ∈
          update_feature_count values features)
    ∧ (∀ k ∈ values.map ValueRow.key, k ∉ features.map FeatureRow.key →
      ({ feature_id := 0, field_id := k.1, actor_id := k.2.1,
         value := k.2.2, count := featureDelta values k } : FeatureRow) ∈
        update_feature_count values features)
    ∧ (∀ f ∈ features, ∃ g ∈ update_feature_count values features,
      g.feature_id = f.feature_id ∧ g.key = f.key ∧ f.count ≤ g.count) := by
  refine ⟨?_, ?_, ?_, ?_⟩
  · intro f hf hnot
    unfold update_feature_count
    refine List.mem_append_left _ (List.mem_map.mpr ⟨f, hf, ?_⟩)
    simp [hnot]
  · intro f hf hmem
    refine ⟨featureDelta_pos values f.key hmem, ?_⟩
    unfold update_feature_count
    refine List.mem_append_left _ (List.mem_map.mpr ⟨f, hf, ?_⟩)
    simp [hmem]
  · intro k hk hnot
    unfold update_feature_count
    refine List.mem_append_right _ (List.mem_map.mpr
      ⟨(k, featureDelta values k), ?_, rfl⟩)
    rw [List.mem_filter]
    constructor
    · unfold groupedCounts
      refine List.mem_map.mpr ⟨k, ?_, rfl⟩
      unfold valueKeys
      exact ((List.perm_insertionSort fkeyLe _).mem_iff).mpr
        (List.mem_dedup.mpr hk)
    · simpa using hnot
  · intro f hf
    by_cases hmem : f.key ∈ values.map ValueRow.key
    · refine ⟨{ f with count := f.count + featureDelta values f.key }, ?_,
        rfl, rfl, by simp⟩
      unfold update_feature_count
      refine List.mem_append_left _ (List.mem_map.mpr ⟨f, hf, ?_⟩)
      simp [hmem]
    · refine ⟨f, ?_, rfl, rfl, le_refl _⟩
      unfold update_feature_count
      refine List.mem_append_left _ (List.mem_map.mpr ⟨f, hf, ?_⟩)
      simp [hmem]

/-- The concrete tables of the repository's own
`tests/test_profile.py TestUpdateFeatureCount.test_missing_values`. -/
def exValuesC9 : List ValueRow :=
  [{ message_id := 1, timestamp := 0, actor_id := 2, field_id := 1,
     value := "\"Greetings\"" },
   { message_id := 2, timestamp := 0, actor_id := 1, field_id := 2,
     value := "\"Whats up?\"" }]

def exFeaturesC9 : List FeatureRow :=
  [{ feature_id := 1, field_id := 1, actor_id := 1, value := "\"Hello\"",
     count := 4 },
   { feature_id := 2, field_id := 1, actor_id := 2, value := "\"Greetings\"",
     count := 2 }]

theorem C9_update_feature_count_frame_witness :
    (({ feature_id := 1, field_id := 1, actor_id := 1, value := "\"Hello\"",
        count := 4 } : FeatureRow).key ∉ exValuesC9.map ValueRow.key)
    ∧ ({ feature_id := 1, field_id := 1, actor_id := 1,
          value := "\"Hello\"", count := 4 } : FeatureRow) ∈
        update_feature_count exValuesC9 exFeaturesC9
    ∧ ({ feature_id := 2, field_id := 1, actor_id := 2,
          value := "\"Greetings\"", count := 2 + featureDelta exValuesC9
            (1, 2, "\"Greetings\"") } : FeatureRow) ∈
        update_feature_count exValuesC9 exFeaturesC9
    ∧ ({ feature_id := 0, field_id := 2, actor_id := 1,
          value := "\"Whats up?\"",
          count := featureDelta exValuesC9 (2, 1, "\"Whats up?\"") } :
            FeatureRow) ∈ update_feature_count exValuesC9 exFeaturesC9 :=
  ⟨by decide,
   (C9_update_feature_count_frame exValuesC9 exFeaturesC9).1
     { feature_id := 1, field_id := 1, actor_id := 1, value := "\"Hello\"",
       count := 4 } (by decide) (by decide),
   ((C9_update_feature_count_frame exValuesC9 exFeaturesC9).2.1
     { feature_id := 2, field_id := 1, actor_id := 2,
       value := "\"Greetings\"", count := 2 } (by decide) (by decide)).2,
   (C9_update_feature_count_frame exValuesC9 exFeaturesC9).2.2.1
     (2, 1, "\"Whats up?\"") (by decide) (by decide)⟩

/-! ### Reporters (`scrywarden/profile/reporters.py`)

One row of the working frame inside a reporter.  The aggregate columns
(`groups`, `total`, `mean`, `count`, `previous_mean`, `null_count`) are
added by merges and start at 0 where a reporter does not use them; after
`df.fillna(0)` they are floats in the source and are embedded as exact
rationals. -/

structure RRow where
  message_id : Nat
  timestamp : Int
  actor_id : Nat
  field_id : Nat
  value : String
  groups : Rat := 0
  total : Rat := 0
  mean : Rat := 0
  count : Rat := 0
  previous_mean : Rat := 0
  null_count : Rat := 0
  score : Rat := 0
deriving Repr, DecidableEq

/-- Sort key of `sort_values(['actor_id', 'timestamp'])`. -/
def leAT (a b : RRow) : Prop :=
  a.actor_id < b.actor_id
  ∨ (a.actor_id = b.actor_id ∧ a.timestamp ≤ b.timestamp)

instance : DecidableRel leAT := fun a b => by
  unfold leAT; infer_instance

/-- Sort key of `sort_values(['actor_id', 'value', 'timestamp'])`. -/
def leAVT (a b : RRow) : Prop :=
  a.actor_id < b.actor_id
  ∨ (a.actor_id = b.actor_id
    ∧ (a.value < b.value
      ∨ (a.value = b.value ∧ a.timestamp ≤ b.timestamp)))

instance : DecidableRel leAVT := fun a b => by
  unfold leAVT; infer_instance

/-- Embedding of `increment_total(values)`: stable-sort by
`(actor_id, timestamp)`, then add to each row's `total` its rank within
its actor group (`df.index - fa_first`, where `fa_first` is the first
position of the row's actor in the sorted frame). -/
def increment_total (values : List RRow) : List RRow :=
  let df := values.insertionSort leAT
  df.enum.map (fun p =>
    { p.2 with total := p.2.total +
        ((p.1 - df.findIdx (fun x => x.actor_id == p.2.actor_id) : Nat) :
          Rat) })

/-- Embedding of `increment_count(values)`: stable-sort by
`(actor_id, value, timestamp)`, then add to each row's `count` its rank
within its `(actor_id, value)` group. -/
def increment_count (values : List RRow) : List RRow :=
  let df := values.insertionSort leAVT
  df.enum.map (fun p =>
    { p.2 with count := p.2.count +
        ((p.1 - df.findIdx (fun x =>
          x.actor_id == p.2.actor_id && x.value == p.2.value) : Nat) :
            Rat) })

/-- The feature rows of one `(field_id, actor_id)` pair
(`matching_features` restricted to the pair a value row joins on). -/
def faFeatures (features : List FeatureRow) (fid aid : Nat) :
    List FeatureRow :=
  features.filter (fun f => f.field_id == fid && f.actor_id == aid)

/-- The `count` of the feature row with the given
`(field_id, actor_id, value)` key, or 0 after `fillna(0)` when there is
none.  The features table carries at most one row per key (unique
`(field_id, actor_id, value)` constraint), which makes the pandas
left-merge a first-match lookup. -/
def favCount (features : List FeatureRow) (k : FKey) : Rat :=
  match features.find? (fun f => f.key == k) with
  | some f => (f.count : Rat)
  | none => 0

namespace Mandatory

/-- The two left-merges and `fillna(0)` opening `Mandatory.__call__`:
each value row picks up `groups` (number of feature rows of its
`(field_id, actor_id)` pair), `total` (their summed counts), `mean`
(their average count) and `count` (the count of its exact
`(field_id, actor_id, value)` feature row). -/
def merge (values : List ValueRow) (features : List FeatureRow) :
    List RRow :=
  values.map (fun v =>
    let fa := faFeatures features v.field_id v.actor_id
    let total : Rat := (fa.map (fun f => (f.count : Rat))).sum
    { message_id := v.message_id, timestamp := v.timestamp,
      actor_id := v.actor_id, field_id := v.field_id, value := v.value,
      groups := (fa.length : Rat)
      total := total
      mean := if fa.length = 0 then 0 else total / (fa.length : Rat)
      count := favCount features v.key })

/-- The `previous_mean` column assignments: rows with more than one
group and a nonzero count get `(mean * groups - count) / (groups - 1)`,
rows with more than one group and count 0 keep the merged `mean`, all
others keep the initial 0. -/
def setPreviousMean (r : RRow) : RRow :=
  if 1 < r.groups ∧ r.count ≠ 0 then
    { r with previous_mean := (r.mean * r.groups - r.count) /
        (r.groups - 1) }
  else if 1 < r.groups ∧ r.count = 0 then
    { r with previous_mean := r.mean }
  else r

/-- One step of the `Mandatory._update_groups` closure: `section` is the
actor id of the previous row (`none` before the first row), `counter`
counts the rows with `count == 0` seen so far in the current actor
partition. -/
def updateGroupsGo : Option Nat → Nat → List RRow → List RRow
  | _, _, [] => []
  | sec, counter, r :: rest =>
    let counter' := if sec ≠ some r.actor_id then 0 else counter
    let r' := if counter' ≠ 0 then
        { r with groups := r.groups + (counter' : Rat) }
      else r
    let counter'' := if r.count = 0 then counter' + 1 else counter'
    r' :: updateGroupsGo (some r.actor_id) counter'' rest

/-- `df.apply(self._update_groups(), axis=1)` in the current row
order. -/
def updateGroups (rows : List RRow) : List RRow :=
  updateGroupsGo none 0 rows

/-- The mean update: rows with `groups > 0` get
`previous_mean + (count - previous_mean) / groups`. -/
def updateMean (r : RRow) : RRow :=
  if 0 < r.groups then
    { r with mean := r.previous_mean +
        (r.count - r.previous_mean) / r.groups }
  else r

/-- The three masked `score` assignments of `Mandatory.__call__`
followed by the `weight` multiplication. -/
def scoreRow (weight : Rat) (r : RRow) : RRow :=
  let s0 : Rat := 0
  let s1 : Rat := if r.value = "" ∨ r.count = 0 then 1 else s0
  let s2 : Rat := if r.count < r.mean ∧ s1 ≠ 1 then
      1 - r.count / r.total
    else s1
  { r with score := s2 * weight }

/-- The full working frame of `Mandatory.__call__` just before the
helper columns are dropped: merge, `previous_mean`, `increment_count`,
`increment_total`, `_update_groups`, mean update, score. -/
def scored (weight : Rat) (values : List ValueRow)
    (features : List FeatureRow) : List RRow :=
  (updateGroups (increment_total (increment_count
    ((merge values features).map setPreviousMean)))).map
      (fun r => scoreRow weight (updateMean r))

/-- The rows `Mandatory.__call__` returns (helper columns dropped). -/
structure OutRow where
  message_id : Nat
  timestamp : Int
  actor_id : Nat
  field_id : Nat
  value : String
  score : Rat
deriving Repr, DecidableEq

def dropHelperColumns (r : RRow) : OutRow :=
  { message_id := r.message_id, timestamp := r.timestamp,
    actor_id := r.actor_id, field_id := r.field_id, value := r.value,
    score := r.score }

/-- Embedding of `Mandatory.__call__(values, features)`. -/
def call (weight : Rat) (values : List ValueRow)
    (features : List FeatureRow) : List OutRow :=
  (scored weight values features).map dropHelperColumns

end Mandatory

/-- C1: every row scored by the Mandatory reporter carries, after the
merges from the features table and the intra-batch increments, helper
quantities `count`, `total`, `mean`, `groups`, and its returned score is
`weight` times: 1 when the row's value is the empty string or
`count == 0`; else 0 when `count >= mean` (the boundary `count == mean`
included); else `1 - count / total`.  The output of
`Mandatory.__call__` is exactly this working frame with the helper
columns dropped. -/
theorem C1_mandatory_score (weight : Rat) (values : List ValueRow)
    (features : List FeatureRow) (r : RRow)
    (hr : r ∈ Mandatory.scored weight values features) :
    r.score = weight * (if r.value = "" ∨ r.count = 0 then 1
      else if r.mean ≤ r.count then 0 else 1 - r.count / r.total)
    ∧ Mandatory.call weight values features =
      (Mandatory.scored weight values features).map
        Mandatory.dropHelperColumns := by
  refine ⟨?_, rfl⟩
  rcases List.mem_map.mp hr with ⟨u, _, rfl⟩
  set w := Mandatory.updateMean u with hw
  unfold Mandatory.scoreRow
  by_cases h1 : w.value = "" ∨ w.count = 0
  · simp [h1, mul_comm]
  · by_cases h2 : w.count < w.mean
    · simp [h1, h2, not_le.mpr h2, mul_comm]
    · simp [h1, h2, not_lt.mp h2, mul_comm]

/-- A one-row batch for an actor with no recorded features. -/
def exValueC1 : ValueRow :=
  { message_id := 1, timestamp := 0, actor_id := 1, field_id := 1,
    value := "x" }

/-- The working-frame row the Mandatory reporter produces for
`exValueC1` against an empty features table. -/
def exRowC1 : RRow :=
  { message_id := 1, timestamp := 0, actor_id := 1, field_id := 1,
    value := "x", score := 1 }

theorem C1_mandatory_score_witness :
    exRowC1 ∈ Mandatory.scored 1 [exValueC1] []
    ∧ exRowC1.score = 1 * (if exRowC1.value = "" ∨ exRowC1.count = 0 then 1
      else if exRowC1.mean ≤ exRowC1.count then 0
      else 1 - exRowC1.count / exRowC1.total) :=
  have hm : exRowC1 ∈ Mandatory.scored 1 [exValueC1] [] := by
    norm_num [Mandatory.scored, Mandatory.merge, Mandatory.setPreviousMean,
      increment_count, increment_total, Mandatory.updateGroups,
      Mandatory.updateGroupsGo, Mandatory.updateMean, Mandatory.scoreRow,
      faFeatures, favCount, List.insertionSort, List.orderedInsert,
      List.enum, List.enumFrom, List.findIdx, List.findIdx.go,
      exValueC1, exRowC1]
  ⟨hm, (C1_mandatory_score 1 [exValueC1] [] exRowC1 hm).1⟩

namespace Mandatory

/-- Number of rows with `count == 0` strictly before position `i`. -/
def zeroCountBefore (rows : List RRow) (i : Nat) : Nat :=
  ((rows.take i).filter (fun r => decide (r.count = 0))).length

theorem updateGroupsGo_spec (a : Nat) (rows : List RRow) :
    ∀ (cnt : Nat), (∀ r ∈ rows, r.actor_id = a) →
      (updateGroupsGo (some a) cnt rows).length = rows.length
      ∧ ∀ i (h : i < rows.length)
          (h' : i < (updateGroupsGo (some a) cnt rows).length),
          (updateGroupsGo (some a) cnt rows).get ⟨i, h'⟩ =
            { rows.get ⟨i, h⟩ with groups := (rows.get ⟨i, h⟩).groups +
                ((cnt + zeroCountBefore rows i : Nat) : Rat) } := by
  induction rows with
  | nil =>
    intro cnt hall
    exact ⟨rfl, fun i h h' => absurd h (by simp)⟩
  | cons r rest ih =>
    intro cnt hall
    have ha : r.actor_id = a := hall r (List.mem_cons_self r rest)
    have hrest : ∀ x ∈ rest, x.actor_id = a := fun x hx =>
      hall x (List.mem_cons_of_mem r hx)
    have hstep : updateGroupsGo (some a) cnt (r :: rest) =
        (if cnt ≠ 0 then { r with groups := r.groups + (cnt : Rat) }
          else r) ::
          updateGroupsGo (some a) (if r.count = 0 then cnt + 1 else cnt)
            rest := by
      simp [updateGroupsGo, ha]
    constructor
    · rw [hstep]
      simpa using (ih _ hrest).1
    · intro i h h'
      match i with
      | 0 =>
        have hz : zeroCountBefore (r :: rest) 0 = 0 := rfl
        rw [List.get_of_eq hstep]
        by_cases hc : cnt = 0
        · subst hc
          cases r
          simp [hz]
        · cases r
          simp [hz, hc]
      | Nat.succ i =>
        have hlt : i < rest.length := by
          simpa [Nat.succ_lt_succ_iff] using h
        have hlt' : i < (updateGroupsGo (some a)
            (if r.count = 0 then cnt + 1 else cnt) rest).length := by
          rw [(ih _ hrest).1]
          exact hlt
        have htail := (ih (if r.count = 0 then cnt + 1 else cnt)
          hrest).2 i hlt hlt'
        have hget : (updateGroupsGo (some a) cnt (r :: rest)).get
            ⟨i + 1, h'⟩ = (updateGroupsGo (some a)
            (if r.count = 0 then cnt + 1 else cnt) rest).get ⟨i, hlt'⟩ := by
          rw [List.get_of_eq hstep]
          rfl
        rw [hget, htail]
        have hcount : (if r.count = 0 then cnt + 1 else cnt) +
            zeroCountBefore rest i =
            cnt + zeroCountBefore (r :: rest) (i + 1) := by
          unfold zeroCountBefore
          by_cases hc : r.count = 0
          · simp [hc]
            omega
          · simp [hc]
        simp [hcount]

theorem updateGroups_single_actor (a : Nat) (rows : List RRow)
    (hall : ∀ r ∈ rows, r.actor_id = a) :
    updateGroups rows = updateGroupsGo (some a) 0 rows := by
  cases rows with
  | nil => rfl
  | cons r rest =>
    have ha : r.actor_id = a := hall r (List.mem_cons_self r rest)
    simp [updateGroups, updateGroupsGo, ha]

end Mandatory

/-- A first-appearance row: `count == 0`, five existing value groups for
its actor. -/
def exRowC4 : RRow :=
  { message_id := 1, timestamp := 0, actor_id := 1, field_id := 1,
    value := "x", groups := 5 }

/-- C4 counterexample: a `(field_id, actor_id, value)` combination with
`count == 0` (a first appearance) whose row does NOT have its `groups`
quantity incremented at that very row: `Mandatory._update_groups`
increments `groups` only at the rows after the appearance (the closure
adds `counter` before it is bumped for the current row). -/
theorem C4_counterexample :
    ∃ (rows : List RRow) (i : Nat) (h : i < rows.length)
      (h' : i < (Mandatory.updateGroups rows).length),
      (rows.get ⟨i, h⟩).count = 0
      ∧ ((Mandatory.updateGroups rows).get ⟨i, h'⟩).groups <
          (rows.get ⟨i, h⟩).groups + 1 := by
  refine ⟨[exRowC4], 0, by norm_num, ?_, ?_, ?_⟩
  · norm_num [Mandatory.updateGroups, Mandatory.updateGroupsGo]
  · norm_num [exRowC4]
  · norm_num [Mandatory.updateGroups, Mandatory.updateGroupsGo, exRowC4]

/-- C4 amended: in the Mandatory reporter, whenever a
`(field_id, actor_id, value)` combination with `count == 0` first
appears mid-batch, the `groups` quantity is incremented by 1 for every
STRICTLY LATER row of the same actor partition — each row's `groups`
gains exactly the number of `count == 0` rows strictly before it in
the partition, so the appearing row itself only sees increments from
earlier new values — and the adjustment runs before the scores are
computed (it feeds the mean update and the score step of
`Mandatory.scored`). -/
theorem C4_update_groups_amended (weight : Rat) (a : Nat)
    (rows : List RRow) (values : List ValueRow)
    (features : List FeatureRow) (hall : ∀ r ∈ rows, r.actor_id = a) :
    ((Mandatory.updateGroups rows).length = rows.length
      ∧ ∀ i (h : i < rows.length)
          (h' : i < (Mandatory.updateGroups rows).length),
          (Mandatory.updateGroups rows).get ⟨i, h'⟩ =
            { rows.get ⟨i, h⟩ with groups := (rows.get ⟨i, h⟩).groups +
                (Mandatory.zeroCountBefore rows i : Rat) })
    ∧ Mandatory.scored weight values features =
        (Mandatory.updateGroups (increment_total (increment_count
          ((Mandatory.merge values features).map
            Mandatory.setPreviousMean)))).map
          (fun r => Mandatory.scoreRow weight (Mandatory.updateMean r)) := by
  refine ⟨?_, rfl⟩
  rw [Mandatory.updateGroups_single_actor a rows hall]
  have hspec := Mandatory.updateGroupsGo_spec a rows 0 hall
  refine ⟨hspec.1, ?_⟩
  intro i h h'
  rw [hspec.2 i h h']
  simp

/-- A two-row single-actor batch: the first row is a first appearance
(`count == 0`), the second row follows it in the same partition. -/
def exRowsC4 : List RRow :=
  [exRowC4,
   { message_id := 2, timestamp := 1, actor_id := 1, field_id := 1,
     value := "y", groups := 5, count := 3 }]

theorem C4_update_groups_amended_witness :
    (∀ r ∈ exRowsC4, r.actor_id = 1)
    ∧ (((Mandatory.updateGroups exRowsC4).length = exRowsC4.length
        ∧ ∀ i (h : i < exRowsC4.length)
            (h' : i < (Mandatory.updateGroups exRowsC4).length),
            (Mandatory.updateGroups exRowsC4).get ⟨i, h'⟩ =
              { exRowsC4.get ⟨i, h⟩ with
                groups := (exRowsC4.get ⟨i, h⟩).groups +
                  (Mandatory.zeroCountBefore exRowsC4 i : Rat) })
      ∧ Mandatory.scored 1 [] [] =
          (Mandatory.updateGroups (increment_total (increment_count
            ((Mandatory.merge [] []).map Mandatory.setPreviousMean)))).map
            (fun r => Mandatory.scoreRow 1 (Mandatory.updateMean r))) :=
  ⟨by decide, C4_update_groups_amended 1 1 exRowsC4 [] [] (by decide)⟩

theorem mem_enumFrom_snd {α : Type} :
    ∀ {l : List α} {n : Nat} {p : Nat × α}, p ∈ l.enumFrom n → p.2 ∈ l := by
  intro l
  induction l with
  | nil => intro n p h; cases h
  | cons x xs ih =>
    intro n p h
    rcases List.mem_cons.mp h with rfl | h2
    · exact List.mem_cons_self x xs
    · exact List.mem_cons_of_mem x (ih h2)

theorem mem_enum_snd {α : Type} {l : List α} {p : Nat × α}
    (h : p ∈ l.enum) : p.2 ∈ l :=
  mem_enumFrom_snd h

namespace Optional

/-- The merges opening `Optional.__call__`: each value row picks up
`total` (summed feature counts of its `(field_id, actor_id)` pair),
`null_count` (the count of the pair's empty-string feature, 0 when
absent) and `count` (the count of its exact key's feature row), with
`fillna(0)`. -/
def merge (values : List ValueRow) (features : List FeatureRow) :
    List RRow :=
  values.map (fun v =>
    { message_id := v.message_id, timestamp := v.timestamp,
      actor_id := v.actor_id, field_id := v.field_id, value := v.value,
      total := ((faFeatures features v.field_id v.actor_id).map
        (fun f => (f.count : Rat))).sum
      null_count := favCount features (v.field_id, v.actor_id, "")
      count := favCount features v.key })

/-- One step of the `Optional._update_count` closure: `counter` counts
the rows with `value == ''` seen so far in the current actor partition
and is added to each later row's `null_count`. -/
def updateNullCountGo : Option Nat → Nat → List RRow → List RRow
  | _, _, [] => []
  | sec, counter, r :: rest =>
    let counter' := if sec ≠ some r.actor_id then 0 else counter
    let r' := if counter' ≠ 0 then
        { r with null_count := r.null_count + (counter' : Rat) }
      else r
    let counter'' := if r.value = "" then counter' + 1 else counter'
    r' :: updateNullCountGo (some r.actor_id) counter'' rest

/-- `df.apply(self._update_count(), axis=1)` in the current row
order. -/
def updateNullCount (rows : List RRow) : List RRow :=
  updateNullCountGo none 0 rows

/-- The masked `score` assignments of `Optional.__call__` followed by
the `weight` multiplication. -/
def scoreRow (weight : Rat) (r : RRow) : RRow :=
  let s0 : Rat := 0
  let s1 : Rat := if r.value ≠ "" ∧ r.count = 0 ∧ r.total = 0 then 1
    else s0
  let s2 : Rat := if r.value ≠ "" ∧ r.count = 0 ∧ s1 = 0 then
      r.null_count / r.total
    else s1
  { r with score := s2 * weight }

/-- The full working frame of `Optional.__call__` before the helper
columns are dropped: merge, `increment_total`, `_update_count`,
`increment_count`, score. -/
def scored (weight : Rat) (values : List ValueRow)
    (features : List FeatureRow) : List RRow :=
  (increment_count (updateNullCount (increment_total
    (merge values features)))).map (scoreRow weight)

/-- Embedding of `Optional.__call__(values, features)` (helper columns
dropped). -/
def call (weight : Rat) (values : List ValueRow)
    (features : List FeatureRow) : List Mandatory.OutRow :=
  (scored weight values features).map Mandatory.dropHelperColumns

theorem count_nonneg_merge (values : List ValueRow)
    (features : List FeatureRow) :
    ∀ r ∈ merge values features, 0 ≤ r.count := by
  intro r hr
  rcases List.mem_map.mp hr with ⟨v, _, rfl⟩
  unfold favCount
  cases h : features.find? (fun f => f.key == v.key) with
  | none => simp
  | some f => simp

theorem count_nonneg_increment_total (l : List RRow)
    (hl : ∀ r ∈ l, 0 ≤ r.count) :
    ∀ r ∈ increment_total l, 0 ≤ r.count := by
  intro r hr
  rcases List.mem_map.mp hr with ⟨p, hp, rfl⟩
  exact hl p.2 (((List.perm_insertionSort leAT l).mem_iff).mp
    (mem_enum_snd hp))

theorem count_nonneg_updateNullCountGo :
    ∀ (l : List RRow) (sec : Option Nat) (counter : Nat),
      (∀ r ∈ l, 0 ≤ r.count) →
      ∀ r ∈ updateNullCountGo sec counter l, 0 ≤ r.count := by
  intro l
  induction l with
  | nil => intro sec counter hl r hr; cases hr
  | cons x xs ih =>
    intro sec counter hl r hr
    unfold updateNullCountGo at hr
    rcases List.mem_cons.mp hr with rfl | h2
    · have hx := hl x (List.mem_cons_self x xs)
      split
      · simpa using hx
      · split <;> simpa using hx
    · exact ih _ _ (fun r hrr => hl r (List.mem_cons_of_mem x hrr)) r h2

theorem count_nonneg_increment_count (l : List RRow)
    (hl : ∀ r ∈ l, 0 ≤ r.count) :
    ∀ r ∈ increment_count l, 0 ≤ r.count := by
  intro r hr
  rcases List.mem_map.mp hr with ⟨p, hp, rfl⟩
  have h2 : 0 ≤ p.2.count := hl p.2
    (((List.perm_insertionSort leAVT l).mem_iff).mp (mem_enum_snd hp))
  have h3 : (0 : Rat) ≤ ((p.1 - (l.insertionSort leAVT).findIdx
      (fun x => x.actor_id == p.2.actor_id && x.value == p.2.value) :
        Nat) : Rat) := by positivity
  simpa using add_nonneg h2 h3

theorem count_nonneg_scored (weight : Rat) (values : List ValueRow)
    (features : List FeatureRow) :
    ∀ r ∈ scored weight values features, 0 ≤ r.count := by
  intro r hr
  rcases List.mem_map.mp hr with ⟨u, hu, rfl⟩
  have h := count_nonneg_increment_count _
    (count_nonneg_updateNullCountGo _ none 0
      (count_nonneg_increment_total _
        (count_nonneg_merge values features))) u hu
  unfold scoreRow
  simpa using h

end Optional

/-- C3: every row scored by the Optional reporter with a non-empty
value receives, after the merges and the intra-batch increments,
`weight * 0` when `count > 0`, `weight * 1` when `count == 0` and
`total == 0`, and `weight * (null_count / total)` otherwise; and every
row whose value is the empty string receives score 0.  The output of
`Optional.__call__` is this working frame with helper columns
dropped. -/
theorem C3_optional_score (weight : Rat) (values : List ValueRow)
    (features : List FeatureRow) (r : RRow)
    (hr : r ∈ Optional.scored weight values features) :
    0 ≤ r.count
    ∧ (r.value = "" → r.score = 0)
    ∧ (r.value ≠ "" → r.score = weight * (if 0 < r.count then 0
        else if r.total = 0 then 1 else r.null_count / r.total))
    ∧ Optional.call weight values features =
      (Optional.scored weight values features).map
        Mandatory.dropHelperColumns := by
  refine ⟨Optional.count_nonneg_scored weight values features r hr, ?_, ?_,
    rfl⟩
  · rcases List.mem_map.mp hr with ⟨u, hu, rfl⟩
    intro hv
    have hv' : u.value = "" := by simpa [Optional.scoreRow] using hv
    simp [Optional.scoreRow, hv']
  · rcases List.mem_map.mp hr with ⟨u, hu, rfl⟩
    have hc0 : 0 ≤ u.count := Optional.count_nonneg_increment_count _
      (Optional.count_nonneg_updateNullCountGo _ none 0
        (Optional.count_nonneg_increment_total _
          (Optional.count_nonneg_merge values features))) u hu
    intro hv
    have hv' : u.value ≠ "" := by simpa [Optional.scoreRow] using hv
    by_cases h1 : u.count = 0
    · by_cases h2 : u.total = 0
      · simp [Optional.scoreRow, hv', h1, h2, mul_comm]
      · simp [Optional.scoreRow, hv', h1, h2, mul_comm]
    · have hpos : 0 < u.count := lt_of_le_of_ne hc0 (Ne.symm h1)
      simp [Optional.scoreRow, hv', h1, hpos, mul_comm]

/-- The working-frame row the Optional reporter produces for
`exValueC1` (an unseen non-empty value, no history at all) against an
empty features table: `count = 0`, `total = 0`, score 1. -/
def exRowC3 : RRow :=
  { message_id := 1, timestamp := 0, actor_id := 1, field_id := 1,
    value := "x", score := 1 }

theorem C3_optional_score_witness :
    exRowC3 ∈ Optional.scored 1 [exValueC1] []
    ∧ (0 ≤ exRowC3.count
      ∧ (exRowC3.value = "" → exRowC3.score = 0)
      ∧ (exRowC3.value ≠ "" → exRowC3.score = 1 * (if 0 < exRowC3.count
          then 0 else if exRowC3.total = 0 then 1
          else exRowC3.null_count / exRowC3.total))
      ∧ Optional.call 1 [exValueC1] [] =
        (Optional.scored 1 [exValueC1] []).map Mandatory.dropHelperColumns) :=
  have hm : exRowC3 ∈ Optional.scored 1 [exValueC1] [] := by
    norm_num [Optional.scored, Optional.merge, Optional.updateNullCount,
      Optional.updateNullCountGo, Optional.scoreRow, increment_count,
      increment_total, faFeatures, favCount, List.insertionSort,
      List.orderedInsert, List.enum, List.enumFrom, List.findIdx,
      List.findIdx.go, exValueC1, exRowC3]
    decide
  ⟨hm, C3_optional_score 1 [exValueC1] [] exRowC3 hm⟩

/-! ### The pipeline value table and the discarded timestamp sort
(`scrywarden/pipline/base.py Pipeline._process`, lines 173-174)

A value row as produced by `Profile.identify` (actor still a name; the
actor id is merged in later). -/

structure PValueRow where
  profile_id : Nat
  message_id : Nat
  timestamp : Int
  actor_name : String
  field_id : Nat
  value : String
deriving Repr, DecidableEq

/-- Timestamp order on identified value rows. -/
def tsLe (a b : PValueRow) : Prop := a.timestamp ≤ b.timestamp

instance : DecidableRel tsLe := fun a b => by
  unfold tsLe; infer_instance

/-- Embedding of `values = pa.concat(dfs, ignore_index=True)` followed
by `values.sort_values('timestamp', ignore_index=True)` in
`Pipeline._process`: pandas `sort_values` returns a sorted copy, and
the source discards that copy, so the binding used downstream is the
unsorted concatenation. -/
def combineIdentified (dfs : List (List PValueRow)) : List PValueRow :=
  let values := dfs.flatten
  let _sorted := values.insertionSort tsLe
  values

/-- Two identified rows out of timestamp order. -/
def exP1 : PValueRow :=
  { profile_id := 1, message_id := 1, timestamp := 2, actor_name := "a",
    field_id := 1, value := "x" }

def exP2 : PValueRow :=
  { profile_id := 1, message_id := 2, timestamp := 1, actor_name := "a",
    field_id := 1, value := "y" }

/-- C2 (code bug): the combined value table is NOT sorted by timestamp
before the downstream steps — `Pipeline._process` calls
`values.sort_values('timestamp', ignore_index=True)` but discards the
returned frame, so every downstream step sees the concatenation order;
on the two-row input with timestamps `[2, 1]` the rows stay `[2, 1]`,
which is not ascending.  (The sorted copy the source throws away is
`values.insertionSort tsLe` in this embedding.) -/
theorem C2_timestamp_sort_discarded :
    (∀ dfs : List (List PValueRow), combineIdentified dfs = dfs.flatten)
    ∧ combineIdentified [[exP1, exP2]] = [exP1, exP2]
    ∧ ¬ (combineIdentified [[exP1, exP2]]).Pairwise tsLe
    ∧ ([exP1, exP2].insertionSort tsLe).Pairwise tsLe := by
  refine ⟨fun dfs => rfl, by decide, by decide, by decide⟩

/-! ### `TimeRangeCollector` (`scrywarden/profile/collectors.py`)

The store tables the collector queries (`Event JOIN Actor JOIN Profile`
and `Anomaly`).  Wall-clock waiting inside `_fetch_anomalies._wait` is
abstracted by assuming the clock has caught up with the window end, so
the wait returns immediately with the current shutdown flag; the
shutdown flag is modelled as a schedule indexed by the loop
iteration. -/

structure CActor where
  id : Nat
  profile_id : Nat
deriving Repr, DecidableEq

structure CEvent where
  id : Nat
  message_id : Nat
  actor_id : Nat
  created_at : Int
deriving Repr, DecidableEq

structure CAnomaly where
  id : Nat
  event_id : Nat
  field_id : Nat
  feature_id : Nat
  score : Rat
deriving Repr, DecidableEq

structure CollectorDB where
  events : List CEvent
  actors : List CActor
  anomalies : List CAnomaly
deriving Repr, DecidableEq

/-- The `Event.actor -> Actor.profile` join condition. -/
def eventHasProfile (db : CollectorDB) (e : CEvent) (pid : Nat) : Bool :=
  db.actors.any (fun a => a.id == e.actor_id && a.profile_id == pid)

/-- Embedding of `TimeRangeCollector._fetch_anomalies`: one output row
per Anomaly joined to its Event, filtered to
`start < created_at <= start + seconds` and the profile. -/
def fetch_anomalies (db : CollectorDB) (pid : Nat) (seconds : Int)
    (start : Int) : List AnomalyRow :=
  db.anomalies.filterMap (fun an =>
    match db.events.find? (fun e => e.id == an.event_id) with
    | some e =>
      if start < e.created_at ∧ e.created_at ≤ start + seconds
          ∧ eventHasProfile db e pid then
        some { event_id := e.id, message_id := e.message_id,
               actor_id := e.actor_id, created_at := e.created_at,
               anomaly_id := an.id, field_id := an.field_id,
               score := an.score }
      else none
    | none => none)

/-- The `Event.created_at > start ... order_by(created_at.asc()).first()`
query: the timestamp of the earliest matching event. -/
def next_event_time (db : CollectorDB) (pid : Nat) (start : Int) :
    Option Int :=
  ((db.events.filter (fun e =>
    decide (start < e.created_at) && eventHasProfile db e pid)).map
      (fun e => e.created_at)).min?

/-- Embedding of `TimeRangeCollector._loop_until_anomalies`; `shut k`
is the shutdown flag observed at loop iteration `k`, `fuel` bounds the
number of iterations (`none` = still looping when the fuel runs out).
When the window query is empty and a later event exists, the source
RETURNS the result of a single query starting at that event's timestamp
(`return self._fetch_anomalies(session, profile, next_event.created_at)`)
instead of looping again. -/
def loop_until_anomalies (fuel : Nat) (shut : Nat → Bool) (k : Nat)
    (db : CollectorDB) (pid : Nat) (seconds : Int) (start : Int) :
    Option (List AnomalyRow) :=
  match fuel with
  | 0 => none
  | fuel + 1 =>
    if shut k then some []
    else
      if fetch_anomalies db pid seconds start ≠ [] then
        some (fetch_anomalies db pid seconds start)
      else
        match next_event_time db pid start with
        | some t => some (fetch_anomalies db pid seconds t)
        | none => loop_until_anomalies fuel shut (k + 1) db pid seconds
            start

/-- One actor of profile 1, one event at time 10 carrying one anomaly;
nothing else. -/
def exDbC7 : CollectorDB :=
  { events := [{ id := 1, message_id := 1, actor_id := 1,
                 created_at := 10 }]
    actors := [{ id := 1, profile_id := 1 }]
    anomalies := [{ id := 1, event_id := 1, field_id := 1,
                    feature_id := 1, score := 1 }] }

/-- C7 counterexample: with the shutdown flag never set, a window query
over `(0, 5]` that is empty and a next event at time 10, the collector
returns an EMPTY table — the advanced query over `(10, 15]` excludes
the boundary event itself (`created_at > start` is strict) and its
result is returned directly instead of retrying — so the collector does
not retry the loop after advancing and can return an empty table
without any shutdown. -/
theorem C7_counterexample :
    loop_until_anomalies 2 (fun _ => false) 0 exDbC7 1 5 0 = some []
    ∧ (∀ k, (fun _ => false : Nat → Bool) k = false)
    ∧ fetch_anomalies exDbC7 1 5 0 = []
    ∧ next_event_time exDbC7 1 0 = some 10
    ∧ fetch_anomalies exDbC7 1 5 10 = []
    ∧ exDbC7.anomalies ≠ [] :=
  ⟨by decide, fun _ => rfl, by decide, by decide, by decide, by decide⟩

/-- C7 amended: every successful return of
`TimeRangeCollector._loop_until_anomalies` is one of: the shutdown flag
was observed at some iteration and the table is empty; the window query
`(start, start + seconds]` returned rows, which are returned (the
starting point never changes across idle retries); or the window query
was empty, an event with `created_at > start` existed, and the result
is the SINGLE query over `(t, t + seconds]` for the earliest such
timestamp `t`, returned directly — possibly empty — without retrying.
When the window is empty and no later event exists, the loop sleeps and
retries with the same `start` and the next shutdown observation. -/
theorem C7_loop_until_anomalies_outcomes (fuel : Nat) (shut : Nat → Bool)
    (k : Nat) (db : CollectorDB) (pid : Nat) (seconds : Int) (start : Int)
    (r : List AnomalyRow)
    (h : loop_until_anomalies fuel shut k db pid seconds start = some r) :
    ((∃ j, k ≤ j ∧ shut j = true ∧ r = [])
      ∨ (r = fetch_anomalies db pid seconds start ∧ r ≠ [])
      ∨ (fetch_anomalies db pid seconds start = []
        ∧ ∃ t, next_event_time db pid start = some t
          ∧ r = fetch_anomalies db pid seconds t))
    ∧ (∀ fuel2 k2, shut k2 = false →
      fetch_anomalies db pid seconds start = [] →
      next_event_time db pid start = none →
      loop_until_anomalies (fuel2 + 1) shut k2 db pid seconds start =
        loop_until_anomalies fuel2 shut (k2 + 1) db pid seconds start) := by
  constructor
  · induction fuel generalizing k with
    | zero => simp [loop_until_anomalies] at h
    | succ fuel ih =>
      rw [loop_until_anomalies] at h
      by_cases hs : shut k = true
      · rw [if_pos hs] at h
        exact Or.inl ⟨k, le_refl k, hs, (Option.some.inj h).symm⟩
      · rw [if_neg hs] at h
        by_cases ha : fetch_anomalies db pid seconds start = []
        · rw [if_neg (not_not_intro ha)] at h
          cases hn : next_event_time db pid start with
          | some t =>
            rw [hn] at h
            exact Or.inr (Or.inr ⟨ha, t, rfl, (Option.some.inj h).symm⟩)
          | none =>
            rw [hn] at h
            rcases ih (k + 1) h with h1 | h2 | h3
            · rcases h1 with ⟨j, hj, hsj, hr⟩
              exact Or.inl ⟨j, le_trans (Nat.le_succ k) hj, hsj, hr⟩
            · exact Or.inr (Or.inl h2)
            · rcases h3 with ⟨_, t, hteq, _⟩
              rw [hn] at hteq
              cases hteq
        · rw [if_pos ha] at h
          have hr := (Option.some.inj h).symm
          exact Or.inr (Or.inl ⟨hr, by rw [hr]; exact ha⟩)
  · intro fuel2 k2 hs ha hn
    conv_lhs => rw [loop_until_anomalies]
    rw [if_neg (by simp [hs]), if_neg (not_not_intro ha), hn]

theorem C7_loop_until_anomalies_outcomes_witness :
    loop_until_anomalies 2 (fun _ => false) 0 exDbC7 1 5 0 = some []
    ∧ (((∃ j, 0 ≤ j ∧ (fun _ => false : Nat → Bool) j = true ∧
          ([] : List AnomalyRow) = [])
        ∨ (([] : List AnomalyRow) = fetch_anomalies exDbC7 1 5 0
          ∧ ([] : List AnomalyRow) ≠ [])
        ∨ (fetch_anomalies exDbC7 1 5 0 = []
          ∧ ∃ t, next_event_time exDbC7 1 0 = some t
            ∧ ([] : List AnomalyRow) = fetch_anomalies exDbC7 1 5 t))
      ∧ (∀ fuel2 k2, (fun _ => false : Nat → Bool) k2 = false →
        fetch_anomalies exDbC7 1 5 0 = [] →
        next_event_time exDbC7 1 0 = none →
        loop_until_anomalies (fuel2 + 1) (fun _ => false) k2 exDbC7 1 5 0 =
          loop_until_anomalies fuel2 (fun _ => false) (k2 + 1) exDbC7
            1 5 0)) :=
  ⟨by decide, C7_loop_until_anomalies_outcomes 2 (fun _ => false) 0 exDbC7
    1 5 0 [] (by decide)⟩

/-! ### The pipeline process cycle (`scrywarden/pipline/base.py`)

The persistent store as the process cycle sees it, and an embedding of
`Pipeline._process` over it.  Database `execute`s are embedded as pure
store updates: an insert of a list of row values inserts those rows
(fresh sequential ids for id columns, on-conflict-do-nothing or
conflict-update semantics as the statement specifies). -/

structure ActorRec where
  id : Nat
  profile_id : Nat
  name : String
deriving Repr, DecidableEq

structure Store where
  actors : List ActorRec
  features : List FeatureRow
  messages : List Nat
  events : List CEvent
  anomalies : List CAnomaly
deriving Repr, DecidableEq

/-- A value row after the actor ids are merged on. -/
structure AValueRow where
  profile_id : Nat
  message_id : Nat
  timestamp : Int
  actor_id : Nat
  field_id : Nat
  value : String
deriving Repr, DecidableEq

/-- A value row with the reporter's score attached, as returned by
`profile.process`. -/
structure ScoredValueRow where
  profile_id : Nat
  message_id : Nat
  timestamp : Int
  actor_id : Nat
  field_id : Nat
  value : String
  score : Rat
deriving Repr, DecidableEq

/-- A profile as the pipeline drives it: `identifyRow` yields the value
rows of one message (`Profile._generate_rows` works message by
message), `processFn` is `profile.process` (reporters plus
`update_feature_count` threading, abstract here). -/
structure PipeProfile where
  id : Nat
  identifyRow : Message → List PValueRow
  processFn : List AValueRow → List FeatureRow →
    List ScoredValueRow × List FeatureRow

/-- `Profile.identify(messages)`: the generated rows with the profile id
column set. -/
def PipeProfile.identify (p : PipeProfile) (msgs : List Message) :
    List PValueRow :=
  ((msgs.map p.identifyRow).flatten).map
    (fun v => { v with profile_id := p.id })

def maxId (l : List Nat) : Nat := l.foldr max 0

/-- A database error surfaced by `session.execute`; the enclosing
`managed_session` rolls the transaction back and re-raises it. -/
inductive DBError where
  | integrityError : DBError
deriving Repr, DecidableEq

/-- `Pipeline._get_actors`: `pg.insert(Actor).values(rows)` for each
distinct `(profile_id, actor_name)`, on-conflict-do-nothing on
`(profile_id, name)` (fresh sequential ids for the new rows); the
select-back is a lookup (`lookupActorId`).

The empty row list does NOT skip the insert: under the pinned
`SQLAlchemy==1.3.*` (setup.py), `.values([])` falls through the
multi-parameter check and the statement degenerates to a single
all-defaults row (`INSERT INTO actor DEFAULT VALUES ON CONFLICT
(profile_id, name) DO NOTHING`), which violates the actor table's NOT
NULL constraints on `profile_id` and `name` and raises
`IntegrityError` at execute (an ON CONFLICT clause does not cover NOT
NULL violations).  `Pipeline._get_actors` has no empty guard — unlike
`Pipeline._update_features`, which checks `values.empty` before
building its statement — so an empty pair set errors. -/
def upsertActors (actors : List ActorRec) (pairs : List (Nat × String)) :
    Except DBError (List ActorRec) :=
  if pairs = [] then .error DBError.integrityError
  else .ok (pairs.foldl (fun acc pr =>
    if acc.any (fun a => a.profile_id == pr.1 && a.name == pr.2) then acc
    else acc ++ [{ id := maxId (acc.map (fun a => a.id)) + 1,
                   profile_id := pr.1, name := pr.2 }]) actors)

/-- The actor upsert as the spec's no-op property intends it — an empty
row list executes no statement, exactly the guard the neighbouring
`Pipeline._update_features` applies to its own insert
(`if values.empty: return`). -/
def upsertActorsGuarded (actors : List ActorRec)
    (pairs : List (Nat × String)) : Except DBError (List ActorRec) :=
  if pairs = [] then .ok actors
  else upsertActors actors pairs

def lookupActorId (actors : List ActorRec) (pid : Nat) (name : String) :
    Nat :=
  match actors.find? (fun a => a.profile_id == pid && a.name == name) with
  | some a => a.id
  | none => 0

/-- The left-merge of the selected actors onto the value table and the
`actor_name` drop. -/
def mergeActorIds (actors : List ActorRec) (values : List PValueRow) :
    List AValueRow :=
  values.map (fun v =>
    { profile_id := v.profile_id, message_id := v.message_id,
      timestamp := v.timestamp,
      actor_id := lookupActorId actors v.profile_id v.actor_name,
      field_id := v.field_id, value := v.value })

/-- `Pipeline._get_features`: the cartesian `field_id IN ... AND
actor_id IN ...` filter. -/
def fetchFeatures (features : List FeatureRow) (fieldIds actorIds : List Nat) :
    List FeatureRow :=
  features.filter (fun f =>
    fieldIds.contains f.field_id && actorIds.contains f.actor_id)

/-- The profile ids of `values.groupby('profile_id')`, in the sorted
order pandas emits groups. -/
def groupIds (values : List AValueRow) : List Nat :=
  ((values.map (fun v => v.profile_id)).dedup).insertionSort
    (fun a b => a ≤ b)

/-- The scoring loop of `Pipeline._process`: each profile group is
processed with the features snapshot threaded forward; the per-group
results are collected.  (The source indexes `_profiles_by_id`; a group
whose profile is unknown would raise there and is skipped here — the
pipeline only processes groups of its own synced profiles.) -/
def scoreGroups (profiles : List PipeProfile) (values : List AValueRow)
    (features : List FeatureRow) :
    List (List ScoredValueRow) × List FeatureRow :=
  (groupIds values).foldl (fun acc pid =>
    match profiles.find? (fun p => p.id == pid) with
    | some p =>
      let res := p.processFn (values.filter (fun v => v.profile_id == pid))
        acc.2
      (acc.1 ++ [res.1], res.2)
    | none => acc) ([], features)

def AValueRow.toValueRow (v : AValueRow) : ValueRow :=
  { message_id := v.message_id, timestamp := v.timestamp,
    actor_id := v.actor_id, field_id := v.field_id, value := v.value }

/-- `Pipeline._update_features`: upsert each `(field_id, actor_id,
value)` group's distinct-message count with
`count <- count + excluded.count`, inserting missing keys with fresh
ids. -/
def upsertFeatures (features : List FeatureRow) (values : List ValueRow) :
    List FeatureRow :=
  (groupedCounts values).foldl (fun acc g =>
    if acc.any (fun f => f.key == g.1) then
      acc.map (fun f =>
        if f.key == g.1 then { f with count := f.count + g.2 } else f)
    else
      acc ++ [{ feature_id := maxId (acc.map (fun f => f.feature_id)) + 1,
                field_id := g.1.1, actor_id := g.1.2.1, value := g.1.2.2,
                count := g.2 }]) features

def lookupFeatureId (features : List FeatureRow) (k : FKey) : Nat :=
  match features.find? (fun f => f.key == k) with
  | some f => f.feature_id
  | none => 0

/-- `Pipeline._generate_events`: upsert the messages that carry at
least one anomaly, insert one event per
`(profile_id, message_id, actor_id, timestamp)` anomaly group and one
anomaly row per group member, with the feature id looked up in the
re-fetched features.  (Group emission order is abstracted to first
occurrence.) -/
def generateEvents (st : Store) (anomalies : List ScoredValueRow)
    (features : List FeatureRow) : Store :=
  let messageIds := (anomalies.map (fun r => r.message_id)).dedup
  let newMessages := messageIds.filter (fun m => decide (m ∉ st.messages))
  let eventKeys := (anomalies.map (fun r =>
    (r.profile_id, r.message_id, r.actor_id, r.timestamp))).dedup
  let base := maxId (st.events.map (fun e => e.id))
  let newEvents : List CEvent := eventKeys.enum.map (fun p =>
    { id := base + p.1 + 1, message_id := p.2.2.1,
      actor_id := p.2.2.2.1, created_at := p.2.2.2.2 })
  let flattened : List CAnomaly := (eventKeys.enum.map (fun p =>
    (anomalies.filter (fun r => r.profile_id == p.2.1
        && r.message_id == p.2.2.1 && r.actor_id == p.2.2.2.1
        && r.timestamp == p.2.2.2.2)).map (fun r =>
      ({ id := 0, event_id := base + p.1 + 1, field_id := r.field_id,
         feature_id := lookupFeatureId features
           (r.field_id, r.actor_id, r.value),
         score := r.score } : CAnomaly)))).flatten
  let abase := maxId (st.anomalies.map (fun a => a.id))
  { st with
    messages := st.messages ++ newMessages
    events := st.events ++ newEvents
    anomalies := st.anomalies ++
      flattened.enum.map (fun q => { q.2 with id := abase + q.1 + 1 }) }

/-- Embedding of `Pipeline._process` on a snapshot of buffered
messages: identify per profile, concatenate (the timestamp sort result
is discarded, see `combineIdentified`), upsert and merge actors, fetch
features, score per profile group with the features threaded, return
early when there are no groups, otherwise filter anomalies, upsert
features and write messages, events and anomalies.  An error raised by
the actor upsert propagates out of the cycle (the main loop logs it and
the batch's work is lost).  The actor upsert is a parameter so the
source behavior (`upsertActors`) and the spec-intended behavior
(`upsertActorsGuarded`) can be compared on the same cycle. -/
def processCycleWith
    (actorUpsert : List ActorRec → List (Nat × String) →
      Except DBError (List ActorRec))
    (profiles : List PipeProfile) (msgs : List Message)
    (st : Store) : Except DBError Store :=
  let values := combineIdentified (profiles.map
    (fun p => p.identify msgs))
  let pairs := (values.map (fun v => (v.profile_id, v.actor_name))).dedup
  match actorUpsert st.actors pairs with
  | .error e => .error e
  | .ok actors1 =>
    let st1 := { st with actors := actors1 }
    let avalues := mergeActorIds actors1 values
    let feats := fetchFeatures st1.features
      ((avalues.map (fun v => v.field_id)).dedup)
      ((avalues.map (fun v => v.actor_id)).dedup)
    let scored := scoreGroups profiles avalues feats
    if scored.1 = [] then .ok st1
    else
      let scoredValues := scored.1.flatten
      let anomalies := scoredValues.filter (fun r => decide (0 < r.score))
      let features2 := upsertFeatures st1.features
        (avalues.map AValueRow.toValueRow)
      let st2 := { st1 with features := features2 }
      .ok (generateEvents st2 anomalies features2)

/-- `Pipeline._process` as the source executes it. -/
def processCycle (profiles : List PipeProfile) (msgs : List Message)
    (st : Store) : Except DBError Store :=
  processCycleWith upsertActors profiles msgs st

/-- The same cycle with the empty-insert guard the spec's no-op
property presumes. -/
def processCycleGuarded (profiles : List PipeProfile)
    (msgs : List Message) (st : Store) : Except DBError Store :=
  processCycleWith upsertActorsGuarded profiles msgs st

/-- C8 (code bug): the process cycle over an empty batch does NOT
complete without error — with no buffered messages every profile
identifies zero rows and `Pipeline._get_actors` executes the
degenerate empty-values insert, which raises `IntegrityError`, so the
cycle errors (this path is reached: `Pipeline.start` runs
`self._process()` unconditionally when draining at shutdown).  Under
the spec-intended semantics, where an empty insert is skipped exactly
as `_update_features` skips its own, the empty-batch cycle is the
claimed no-op: it returns the store unchanged — no actor, feature,
message, event or anomaly row is inserted or modified. -/
theorem C8_empty_batch_cycle (profiles : List PipeProfile) (st : Store) :
    processCycle profiles [] st = .error DBError.integrityError
    ∧ processCycleGuarded profiles [] st = .ok st := by
  have h1 : ∀ p : PipeProfile, p.identify [] = [] := fun p => rfl
  constructor
  · simp [processCycle, processCycleWith, combineIdentified, h1,
      upsertActors]
  · simp [processCycleGuarded, processCycleWith, combineIdentified, h1,
      upsertActorsGuarded, mergeActorIds, fetchFeatures, scoreGroups,
      groupIds]

/-! ### The investigation claiming protocol
(`scrywarden/investigator/base.py`, `scrywarden/database.py`)

One investigation group's rows and the concurrently running claimants,
as a transition system.  `invs` is the group's investigation table in
`created_at` (insertion) order, oldest first; `created_at` is embedded
as this insertion order, so `_get_previous_investigation`'s
`order_by(created_at.desc()).first()` reads the last element.  Each
`pending` entry is one claimant that has completed its previous-fetch
(first query of `_get_previous_investigation`, which returns only when
the most recent investigation is assigned, or `None` on an empty
group) and has not yet executed its insert; the entry records the
observed previous index (`none` for no previous).

Transitions are the atomic database operations of
`Investigator._create_investigation` and `_investigate`:

* `fetch_none` / `fetch_prev` — a claimant completes the previous
  fetch;
* `claim_ok` — a claimant inserts `index = previous + 1` (1 for no
  previous); enabled only when the unique `(group_id, index)`
  constraint admits the row;
* `claim_conflict` — the insert hits the unique constraint
  (`IntegrityError`); the claimant drops its observation and retries
  from the fetch;
* `assign` — the claim transaction publishes `is_assigned = true`;
* `remove_unassigned` — an unassigned investigation is deleted: this
  over-approximates both the empty-window delete of a claimant's own
  investigation and the reaping of a dead claimant's tombstone
  (`created_by IS NULL`), which only ever target unassigned rows. -/

structure InvRow where
  index : Nat
  is_assigned : Bool
deriving Repr, DecidableEq

structure InvState where
  invs : List InvRow
  pending : List (Option Nat)
deriving Repr, DecidableEq

/-- `previous.index + 1 if previous else 1`. -/
def nextIndex : Option Nat → Nat
  | none => 1
  | some k => k + 1

def indexes (s : InvState) : List Nat :=
  s.invs.map (fun i => i.index)

def claimedRow (p : Option Nat) : InvRow :=
  { index := nextIndex p, is_assigned := false }

inductive InvStep : InvState → InvState → Prop where
  | fetch_none : ∀ s, s.invs = [] →
      InvStep s { invs := s.invs, pending := none :: s.pending }
  | fetch_prev : ∀ s inv, s.invs.getLast? = some inv →
      inv.is_assigned = true →
      InvStep s { invs := s.invs, pending := some inv.index :: s.pending }
  | claim_ok : ∀ s p l r, s.pending = l ++ p :: r →
      nextIndex p ∉ indexes s →
      InvStep s { invs := s.invs ++ [claimedRow p], pending := l ++ r }
  | claim_conflict : ∀ s p l r, s.pending = l ++ p :: r →
      nextIndex p ∈ indexes s →
      InvStep s { invs := s.invs, pending := l ++ r }
  | assign : ∀ s l inv r, s.invs = l ++ inv :: r →
      inv.is_assigned = false →
      InvStep s
        { invs := l ++ { inv with is_assigned := true } :: r,
          pending := s.pending }
  | remove_unassigned : ∀ s l inv r, s.invs = l ++ inv :: r →
      inv.is_assigned = false →
      InvStep s { invs := l ++ r, pending := s.pending }

def initInvState : InvState := { invs := [], pending := [] }

inductive InvReachable : InvState → Prop where
  | init : InvReachable initInvState
  | step : ∀ {s t}, InvReachable s → InvStep s t → InvReachable t

/-- The protocol invariant: the indexes are exactly `1, 2, ..., n` in
insertion order; any unassigned investigation is the newest one
(index `n`); and every observation a claimant holds points at an
assigned investigation that is still in the table. -/
def InvGood (s : InvState) : Prop :=
  indexes s = List.range' 1 s.invs.length
  ∧ (∀ inv ∈ s.invs, inv.is_assigned = false → inv.index = s.invs.length)
  ∧ (∀ p ∈ s.pending, ∀ k, p = some k →
      ∃ inv ∈ s.invs, inv.index = k ∧ inv.is_assigned = true)

theorem range'_one_snoc (n : Nat) :
    List.range' 1 n ++ [n + 1] = List.range' 1 (n + 1) := by
  have h := List.range'_append_1 1 n 1
  rw [List.range'_one] at h
  rw [show n + 1 = 1 + n from Nat.add_comm n 1]
  exact h

theorem indexes_nodup {s : InvState} (hidx : indexes s =
    List.range' 1 s.invs.length) :
    (s.invs.map (fun i => i.index)).Nodup := by
  rw [show s.invs.map (fun i => i.index) = indexes s from rfl, hidx]
  exact List.nodup_range' 1 s.invs.length

theorem InvGood_init : InvGood initInvState := by
  refine ⟨rfl, ?_, ?_⟩
  · intro inv h; cases h
  · intro p h; cases h

theorem InvGood_step {s t : InvState} (hg : InvGood s)
    (hstep : InvStep s t) : InvGood t := by
  obtain ⟨hidx, huna, hpend⟩ := hg
  cases hstep with
  | fetch_none hempty =>
    refine ⟨hidx, huna, ?_⟩
    intro p hp k hk
    rcases List.mem_cons.mp hp with rfl | hp2
    · cases hk
    · exact hpend p hp2 k hk
  | fetch_prev inv hlast hassigned =>
    refine ⟨hidx, huna, ?_⟩
    intro p hp k hk
    rcases List.mem_cons.mp hp with rfl | hp2
    · obtain ⟨hne, heq⟩ := List.mem_getLast?_eq_getLast
        (show inv ∈ s.invs.getLast? by simp [hlast])
      have hmem : inv ∈ s.invs := heq ▸ List.getLast_mem hne
      cases hk
      exact ⟨inv, hmem, rfl, hassigned⟩
    · exact hpend p hp2 k hk
  | claim_ok p l r hsplit hnotin =>
    have hpmem : p ∈ s.pending := by
      rw [hsplit]
      exact List.mem_append_right l (List.mem_cons_self p r)
    have hidx2 : ∀ q ∈ l ++ r, q ∈ s.pending := by
      intro q hq
      rw [hsplit]
      rcases List.mem_append.mp hq with h1 | h2
      · exact List.mem_append_left _ h1
      · exact List.mem_append_right _ (List.mem_cons_of_mem p h2)
    cases p with
    | none =>
      have h1 : (1 : Nat) ∉ List.range' 1 s.invs.length := by
        rw [← hidx]
        exact hnotin
      have hn : s.invs.length = 0 := by
        by_contra hne
        exact h1 (List.mem_range'_1.mpr (by omega))
      have hnil : s.invs = [] := List.length_eq_zero.mp hn
      refine ⟨?_, ?_, ?_⟩
      · simp [indexes, hnil, claimedRow, nextIndex]
      · intro inv hinv _
        rw [hnil] at hinv
        simp at hinv
        simp [hinv, claimedRow, nextIndex, hnil]
      · intro q hq k hk
        obtain ⟨w, hw, hwk, hwa⟩ := hpend q (hidx2 q hq) k hk
        exact ⟨w, List.mem_append_left _ hw, hwk, hwa⟩
    | some k0 =>
      obtain ⟨w, hw, hwk, hwa⟩ := hpend (some k0) hpmem k0 rfl
      have hk0mem : k0 ∈ List.range' 1 s.invs.length := by
        rw [← hidx]
        exact List.mem_map.mpr ⟨w, hw, hwk⟩
      have hk0le : k0 < 1 + s.invs.length := (List.mem_range'_1.mp hk0mem).2
      have hk1 : k0 + 1 ∉ List.range' 1 s.invs.length := by
        rw [← hidx]
        exact hnotin
      have hk0n : k0 = s.invs.length := by
        by_contra hne
        refine hk1 (List.mem_range'_1.mpr ?_)
        omega
      refine ⟨?_, ?_, ?_⟩
      · show (s.invs ++ [claimedRow (some k0)]).map (fun i => i.index) =
          List.range' 1 (s.invs ++ [claimedRow (some k0)]).length
        rw [List.map_append]
        rw [show s.invs.map (fun i => i.index) = indexes s from rfl, hidx]
        simp only [claimedRow, nextIndex, List.map_cons, List.map_nil,
          List.length_append, List.length_cons, List.length_nil]
        rw [hk0n]
        exact range'_one_snoc s.invs.length
      · intro inv hinv hun2
        rcases List.mem_append.mp hinv with h1 | h2
        · have hidxn : inv.index = s.invs.length := huna inv h1 hun2
          have heqw : inv = w := List.inj_on_of_nodup_map
            (indexes_nodup hidx) h1 hw (by rw [hidxn, hwk, hk0n])
          rw [heqw] at hun2
          rw [hwa] at hun2
          cases hun2
        · simp at h2
          rw [h2]
          simp [claimedRow, nextIndex, hk0n]
      · intro q hq k hk
        obtain ⟨w2, hw2, hw2k, hw2a⟩ := hpend q (hidx2 q hq) k hk
        exact ⟨w2, List.mem_append_left _ hw2, hw2k, hw2a⟩
  | claim_conflict p l r hsplit hin =>
    refine ⟨hidx, huna, ?_⟩
    intro q hq k hk
    refine hpend q ?_ k hk
    rw [hsplit]
    rcases List.mem_append.mp hq with h1 | h2
    · exact List.mem_append_left _ h1
    · exact List.mem_append_right _ (List.mem_cons_of_mem p h2)
  | assign l inv r hsplit hun =>
    have hlen : (l ++ { inv with is_assigned := true } :: r).length =
        s.invs.length := by
      rw [hsplit]
      simp
    refine ⟨?_, ?_, ?_⟩
    · show (l ++ { inv with is_assigned := true } :: r).map
        (fun i => i.index) = _
      rw [hlen]
      rw [← hidx]
      show _ = s.invs.map (fun i => i.index)
      rw [hsplit]
      simp
    · intro x hx hxun
      rcases List.mem_append.mp hx with h1 | h2
      · have : x ∈ s.invs := by
          rw [hsplit]
          exact List.mem_append_left _ h1
        rw [hlen]
        exact huna x this hxun
      · rcases List.mem_cons.mp h2 with rfl | h3
        · simp at hxun
        · have : x ∈ s.invs := by
            rw [hsplit]
            exact List.mem_append_right _ (List.mem_cons_of_mem inv h3)
          rw [hlen]
          exact huna x this hxun
    · intro q hq k hk
      obtain ⟨w, hw, hwk, hwa⟩ := hpend q hq k hk
      have hwne : w ≠ inv := by
        intro he
        rw [he, hun] at hwa
        cases hwa
      rw [hsplit] at hw
      rcases List.mem_append.mp hw with h1 | h2
      · exact ⟨w, List.mem_append_left _ h1, hwk, hwa⟩
      · rcases List.mem_cons.mp h2 with he | h3
        · exact absurd he hwne
        · exact ⟨w, List.mem_append_right _ (List.mem_cons_of_mem _ h3),
            hwk, hwa⟩
  | remove_unassigned l inv r hsplit hun =>
    have hmeminv : inv ∈ s.invs := by
      rw [hsplit]
      exact List.mem_append_right _ (List.mem_cons_self inv r)
    have hinvn : inv.index = s.invs.length := huna inv hmeminv hun
    have hlen : s.invs.length = l.length + 1 + r.length := by
      rw [hsplit]
      simp
      omega
    have hltl : l.length < s.invs.length := by omega
    have hget1 : (indexes s)[l.length]? = some inv.index := by
      show (s.invs.map (fun i => i.index))[l.length]? = some inv.index
      rw [hsplit]
      rw [List.map_append]
      rw [List.getElem?_append_right (by simp)]
      simp
    have hget2 : (List.range' 1 s.invs.length)[l.length]? =
        some (1 + l.length) := by
      rw [List.getElem?_eq_getElem (by simpa using hltl)]
      simp
    have hpos : inv.index = 1 + l.length := by
      rw [hidx] at hget1
      rw [hget1] at hget2
      exact Option.some.inj hget2
    have hrnil : r = [] := by
      have : s.invs.length = 1 + l.length := by rw [← hinvn, hpos]
      have hr0 : r.length = 0 := by omega
      exact List.eq_nil_of_length_eq_zero hr0
    subst hrnil
    have hsplit2 : s.invs = l ++ [inv] := hsplit
    have hnl : s.invs.length = l.length + 1 := by
      rw [hsplit2]
      simp
    have hmapl : l.map (fun i => i.index) = List.range' 1 l.length := by
      have happ : l.map (fun i => i.index) ++ [inv.index] =
          List.range' 1 l.length ++ [l.length + 1] := by
        rw [range'_one_snoc]
        rw [← hnl, ← hidx]
        show _ = s.invs.map (fun i => i.index)
        rw [hsplit2]
        simp
      exact (List.append_inj happ (by simp)).1
    refine ⟨?_, ?_, ?_⟩
    · show (l ++ []).map (fun i : InvRow => i.index) =
        List.range' 1 (l ++ []).length
      simpa using hmapl
    · intro x hx hxun
      simp at hx
      have hxmem : x ∈ s.invs := by
        rw [hsplit2]
        exact List.mem_append_left _ hx
      have hxn : x.index = s.invs.length := huna x hxmem hxun
      have hxin : x.index ∈ List.range' 1 l.length := by
        rw [← hmapl]
        exact List.mem_map.mpr ⟨x, hx, rfl⟩
      have := (List.mem_range'_1.mp hxin).2
      rw [hxn, hnl] at this
      omega
    · intro q hq k hk
      obtain ⟨w, hw, hwk, hwa⟩ := hpend q hq k hk
      have hwne : w ≠ inv := by
        intro he
        rw [he, hun] at hwa
        cases hwa
      rw [hsplit2] at hw
      rcases List.mem_append.mp hw with h1 | h2
      · exact ⟨w, by simpa using h1, hwk, hwa⟩
      · simp at h2
        exact absurd h2 hwne

theorem InvGood_reachable (s : InvState) (h : InvReachable s) :
    InvGood s := by
  induction h with
  | init => exact InvGood_init
  | step _ hstep ih => exact InvGood_step ih hstep

/-- C6: in every reachable state of the claiming protocol, the group's
investigation indexes are exactly `1, 2, ..., max` — in insertion order,
without duplicates and without gaps.  New investigations are inserted
with `index = previous.index + 1` (1 with no previous), claimants
racing for the same index are serialized by the unique
`(group_id, index)` constraint (`claim_ok` versus `claim_conflict`),
and a conflicting claimant retries from the previous-fetch. -/
theorem C6_investigation_indexes_gap_free (s : InvState)
    (h : InvReachable s) :
    indexes s = List.range' 1 s.invs.length
    ∧ (indexes s).Nodup
    ∧ ∀ k, k ∈ indexes s ↔ (1 ≤ k ∧ k ≤ s.invs.length) := by
  have hidx := (InvGood_reachable s h).1
  refine ⟨hidx, ?_, ?_⟩
  · rw [hidx]
    exact List.nodup_range' 1 s.invs.length
  · intro k
    rw [hidx, List.mem_range'_1]
    omega

/-- The state after two claims: investigator A claimed and assigned
index 1, investigator B observed it and claimed index 2. -/
def exInvState : InvState :=
  { invs := [{ index := 1, is_assigned := true },
             { index := 2, is_assigned := false }], pending := [] }

theorem C6_investigation_indexes_gap_free_witness :
    InvReachable exInvState
    ∧ (indexes exInvState = List.range' 1 exInvState.invs.length
      ∧ (indexes exInvState).Nodup
      ∧ ∀ k, k ∈ indexes exInvState ↔
          (1 ≤ k ∧ k ≤ exInvState.invs.length)) :=
  have h1 : InvReachable ⟨([] : List InvRow), [(none : Option Nat)]⟩ :=
    InvReachable.step InvReachable.init (InvStep.fetch_none _ rfl)
  have h2 : InvReachable ⟨[⟨1, false⟩], ([] : List (Option Nat))⟩ :=
    InvReachable.step h1 (InvStep.claim_ok _ none [] [] rfl (by decide))
  have h3 : InvReachable ⟨[⟨1, true⟩], ([] : List (Option Nat))⟩ :=
    InvReachable.step h2 (InvStep.assign _ [] ⟨1, false⟩ [] rfl rfl)
  have h4 : InvReachable ⟨[⟨1, true⟩], [some 1]⟩ :=
    InvReachable.step h3 (InvStep.fetch_prev _ ⟨1, true⟩ rfl rfl)
  have h5 : InvReachable exInvState :=
    InvReachable.step h4 (InvStep.claim_ok _ (some 1) [] [] rfl (by decide))
  ⟨h5, C6_investigation_indexes_gap_free exInvState h5⟩
